import Mathlib

/-!
Shallow embedding of the `gha-ts` (gaji) workflow compiler core, translated
from the Rust sources under `src/`:

* `src/cache.rs`        — content-hash/TTL build cache (`Cache`)
* `src/fetcher.rs`      — dependency reference parsing (`ActionRef::parse`)
* `src/executor.rs`     — sandbox bridge (`execute_js`) and module-syntax
                          normalization (`remove_imports`)
* `src/builder.rs`      — compilation driver fallback selection and
                          workflow validation (`validate_workflow_yaml`)
* `src/generator/`      — typed-declaration generation
* `src/parser/extractor.rs` — static reference extractor (AST walk)

Rust machine integers are modelled as `Nat` with explicit `% 2^64` wherever
the source relies on wrapping arithmetic.  Rust `HashMap`s are modelled as
association lists so that iteration order is explicit in the value.  Rust
string primitives (`split`, `trim`, `lines`, `starts_with`, `replacen`,
`trim_start_matches`, `str::bytes`) are re-implemented over `List Char`
by structural recursion so every definition is executable and
kernel-reducible.
-/

namespace Gaji

/-- The modulus of Rust `u64` arithmetic. -/
def U64 : Nat := 2 ^ 64

/-! ## Character-level models of the Rust `str` primitives -/

/-- Model of Rust `str::split` with a set of separator characters: splits the
character list at every occurrence of a separator.  `splitOnChars cs "" = [""]`
as in Rust. -/
def splitOnChars (seps : List Char) : List Char → List (List Char)
  | [] => [[]]
  | a :: rest =>
    if seps.contains a then
      [] :: splitOnChars seps rest
    else
      match splitOnChars seps rest with
      | [] => [[a]]
      | h :: t => (a :: h) :: t

/-- Rust `s.split(c)` for a single separator character, producing strings. -/
def rustSplitChar (s : String) (c : Char) : List String :=
  (splitOnChars [c] s.data).map String.mk

/-- Boolean prefix test on character lists (Rust `str::starts_with`). -/
def isPrefixL : List Char → List Char → Bool
  | [], _ => true
  | _ :: _, [] => false
  | p :: ps, a :: rest => p == a && isPrefixL ps rest

/-- Rust `str::starts_with` on strings. -/
def rustStartsWith (s pat : String) : Bool :=
  isPrefixL pat.data s.data

/-- Whitespace per Rust `char::is_whitespace`, restricted to the ASCII
white-space characters (the Unicode-only white-space code points are not
modelled; no input in this development contains them). -/
def isRustWhitespace (c : Char) : Bool :=
  c == ' ' || c == '\t' || c == '\n' || c == '\r' || c == '\x0b' || c == '\x0c'

/-- Rust `str::trim`: remove leading and trailing whitespace. -/
def trimL (s : List Char) : List Char :=
  ((s.dropWhile isRustWhitespace).reverse.dropWhile isRustWhitespace).reverse

/-- Rust `str::trim` on strings. -/
def rustTrim (s : String) : String :=
  String.mk (trimL s.data)

/-- One bounded pass of Rust `str::trim_start_matches`: strip the prefix `pat`
repeatedly, at most `fuel` times.  Each successful strip removes at least one
character (the callers always pass a non-empty `pat`), so `fuel := s.length`
makes this equal to the unbounded Rust loop. -/
def trimStartMatchesAux (pat : List Char) : Nat → List Char → List Char
  | 0, s => s
  | fuel + 1, s =>
    if pat ≠ [] && isPrefixL pat s then
      trimStartMatchesAux pat fuel (s.drop pat.length)
    else
      s

/-- Rust `str::trim_start_matches pat` (repeatedly strips the prefix). -/
def trimStartMatchesL (pat s : List Char) : List Char :=
  trimStartMatchesAux pat s.length s

/-- Rust `str::replacen(pat, "", 1)`: remove the first (leftmost) occurrence
of `pat`, leaving the string unchanged when `pat` does not occur. -/
def removeFirstOccL (pat : List Char) : List Char → List Char
  | [] => []
  | a :: rest =>
    if isPrefixL pat (a :: rest) then
      (a :: rest).drop pat.length
    else
      a :: removeFirstOccL pat rest

/-- Bounded scanner for Rust `str::replace(pat, repl)`: every step consumes
at least one input character, so `fuel := s.length` makes it total and equal
to the unbounded Rust scan. -/
def replaceAllAux (pat repl : List Char) : Nat → List Char → List Char
  | _, [] => []
  | 0, s => s
  | fuel + 1, a :: rest =>
    if pat ≠ [] && isPrefixL pat (a :: rest) then
      repl ++ replaceAllAux pat repl fuel ((a :: rest).drop pat.length)
    else
      a :: replaceAllAux pat repl fuel rest

/-- Rust `str::replace(pat, repl)` (all occurrences, non-overlapping, scanning
left to right); used by the generator with the single-character pattern `"v"`. -/
def replaceAllL (pat repl s : List Char) : List Char :=
  replaceAllAux pat repl s.length s

/-- UTF-8 encoding of one scalar value (Rust `str::bytes` yields these). -/
def utf8Bytes (c : Char) : List Nat :=
  let v := c.toNat
  if v < 0x80 then [v]
  else if v < 0x800 then
    [0xC0 + v / 64, 0x80 + v % 64]
  else if v < 0x10000 then
    [0xE0 + v / 4096, 0x80 + v / 64 % 64, 0x80 + v % 64]
  else
    [0xF0 + v / 262144, 0x80 + v / 4096 % 64, 0x80 + v / 64 % 64, 0x80 + v % 64]

/-- Rust `str::bytes` (the UTF-8 bytes of the string). -/
def rustBytes (s : String) : List Nat :=
  s.data.flatMap utf8Bytes

/-- Strip one trailing `'\r'` (for a line that was terminated by `"\r\n"`). -/
def stripTrailingCR (l : List Char) : List Char :=
  if l.getLast? = some '\r' then l.dropLast else l

/-- Rust `str::lines`: split at `'\n'`, stripping the `'\r'` of `"\r\n"`
endings; the final line ending is optional (no empty final line for a
trailing newline), and a last line without a newline keeps any trailing
`'\r'`. -/
def rustLines (s : String) : List String :=
  match (splitOnChars ['\n'] s.data).reverse with
  | [] => []
  | last :: revInit =>
    if last = [] then (revInit.reverse.map stripTrailingCR).map String.mk
    else (revInit.reverse.map stripTrailingCR).map String.mk ++ [String.mk last]

/-- Lower-case hex digit for a value `< 16`. -/
def hexDigit (n : Nat) : Char :=
  if n < 10 then Char.ofNat (48 + n) else Char.ofNat (87 + n)

/-- Rust `format!("\x7b:016x\x7d", h)` for `h < 2^64`: sixteen zero-padded
lower-case hex digits. -/
def toHex16 (n : Nat) : String :=
  String.mk ((List.range 16).map fun i => hexDigit (n / 16 ^ (15 - i) % 16))

/-! ## Data model (`src/fetcher.rs`, `src/cache.rs`)

`HashMap<String, _>` fields are modelled as association lists
`List (String × _)`; the list order is the map's iteration order. -/

/-- `fetcher.rs` `ActionInput`. -/
structure ActionInput where
  description : Option String
  required : Option Bool
  default : Option String
  deprecation_message : Option String
deriving DecidableEq, Repr

/-- `fetcher.rs` `ActionOutput`. -/
structure ActionOutput where
  description : Option String
  value : Option String
deriving DecidableEq, Repr

/-- `fetcher.rs` `ActionRuns` (`using` is renamed `runs_using`: `using` is a
Lean keyword). -/
structure ActionRuns where
  runs_using : String
  main : Option String
  pre : Option String
  post : Option String
  image : Option String
  entrypoint : Option String
  args : Option (List String)
deriving DecidableEq, Repr

/-- `fetcher.rs` `ActionMetadata`. -/
structure ActionMetadata where
  name : String
  description : Option String
  inputs : Option (List (String × ActionInput))
  outputs : Option (List (String × ActionOutput))
  runs : Option ActionRuns
deriving DecidableEq, Repr

/-- `fetcher.rs` `ActionRef` (`ref_` keeps the Rust field name). -/
structure ActionRef where
  owner : String
  repo : String
  path : Option String
  ref_ : String
deriving DecidableEq, Repr

/-- Split a character list at the first occurrence of `c`: `none` when `c`
does not occur, otherwise the part before and the (untouched) part after. -/
def splitFirstAt (c : Char) : List Char → Option (List Char × List Char)
  | [] => none
  | a :: rest =>
    if a == c then some ([], rest)
    else (splitFirstAt c rest).map fun p => (a :: p.1, p.2)

/-- Rust `action_ref.splitn(2, '@')`: at most two parts, split at the FIRST
`'@'`; a string without `'@'` yields one part. -/
def splitnTwoAt (s : String) : List String :=
  match splitFirstAt '@' s.data with
  | none => [s]
  | some (before, after) => [String.mk before, String.mk after]

/-- `fetcher.rs` `ActionRef::parse`.  Mirrors the source: split into at most
two parts on the first `'@'` (error unless exactly two), split the part
before the `'@'` on `'/'` (error unless at least two segments), then
owner = segment 0, repo = segment 1, path = the remaining segments joined
with `'/'` (when any), ref = the part after the first `'@'`. -/
def ActionRef.parse (action_ref : String) : Except String ActionRef :=
  match splitnTwoAt action_ref with
  | [before, after] =>
    match rustSplitChar before '/' with
    | p0 :: p1 :: rest =>
      .ok { owner := p0, repo := p1,
            path := if rest.isEmpty then none else some (String.intercalate "/" rest),
            ref_ := after }
    | _ =>
      .error ("Invalid action reference: " ++ action_ref ++ ". Expected at least owner/repo")
  | _ =>
    .error ("Invalid action reference format: " ++ action_ref ++ ". Expected format: owner/repo@ref")

/-! ## Build cache (`src/cache.rs`) -/

/-- `cache.rs` `CacheEntry`; `generated_at` is a `u64` epoch-seconds value. -/
structure CacheEntry where
  action_ref : String
  content_hash : String
  generated_at : Nat
  metadata : ActionMetadata
deriving DecidableEq, Repr

/-- `cache.rs` `CacheData`.  The derived Rust `Default` has `version = 0` and
no entries. -/
structure CacheData where
  version : Nat
  entries : List (String × CacheEntry)
deriving DecidableEq, Repr

/-- Rust `CacheData::default()` (the `#[derive(Default)]` value). -/
def CacheData.defaultData : CacheData := ⟨0, []⟩

/-- The backing file name constant `CACHE_FILE`. -/
def cacheFileName : String := ".gaji-cache.json"

/-- `cache.rs` `Cache`: in-memory data plus the backing file path. -/
structure Cache where
  data : CacheData
  cache_file : String
deriving DecidableEq, Repr

/-- `HashMap::get` on the entry table. -/
def lookupEntry (entries : List (String × CacheEntry)) (k : String) : Option CacheEntry :=
  (entries.find? fun p => p.1 == k).map (·.2)

/-- `HashMap::insert` on the entry table: replace the existing binding in
place or append a new one. -/
def insertEntry (entries : List (String × CacheEntry)) (k : String) (v : CacheEntry) :
    List (String × CacheEntry) :=
  match entries with
  | [] => [(k, v)]
  | (k', v') :: rest =>
    if k' == k then (k, v) :: rest else (k', v') :: insertEntry rest k v

/-- `HashMap::remove` on the entry table. -/
def removeEntry (entries : List (String × CacheEntry)) (k : String) :
    List (String × CacheEntry) :=
  entries.filter fun p => p.1 != k

/-- `cache.rs` `calculate_hash`: the non-cryptographic rolling accumulator
`hash = hash.wrapping_mul(31).wrapping_add(byte)` over the UTF-8 bytes,
formatted as sixteen hex digits. -/
def calculate_hash (content : String) : String :=
  toHex16 ((rustBytes content).foldl (fun h b => (h * 31 + b) % U64) 0)

/-- `Cache::get`. -/
def Cache.get (c : Cache) (action_ref : String) : Option ActionMetadata :=
  (lookupEntry c.data.entries action_ref).map (·.metadata)

/-- `Cache::list`. -/
def Cache.list (c : Cache) : List String :=
  c.data.entries.map (·.1)

/-- `Cache::should_regenerate`: true iff there is no entry for `action_ref`
or the stored content hash differs from `new_hash`. -/
def Cache.should_regenerate (c : Cache) (action_ref new_hash : String) : Bool :=
  match lookupEntry c.data.entries action_ref with
  | some entry => entry.content_hash != new_hash
  | none => true

/-- `Cache::is_expired`.  `now` (epoch seconds, read from the system clock in
the source) is passed explicitly.  The `u64` product `max_age_days * 24 * 60
* 60` and the `u64` difference `now - generated_at` are modelled with
wrapping (`% 2^64`) semantics, matching a release build. -/
def Cache.is_expired (c : Cache) (action_ref : String) (max_age_days : Nat) (now : Nat) : Bool :=
  let max_age_secs := max_age_days * 24 * 60 * 60 % U64
  match lookupEntry c.data.entries action_ref with
  | some entry => (now % U64 + U64 - entry.generated_at % U64) % U64 > max_age_secs
  | none => true

/-- `Cache::set` takes `&self`: it clones the in-memory table, inserts the
new entry into the clone, and writes the clone to the backing file.  The
returned pair is (the unchanged in-memory cache, the `CacheData` that is
serialized and written to `cache_file`). -/
def Cache.set (c : Cache) (action_ref : String) (metadata : ActionMetadata)
    (yaml_content : String) (now : Nat) : Cache × CacheData :=
  let entry : CacheEntry :=
    { action_ref := action_ref
      content_hash := calculate_hash yaml_content
      generated_at := now % U64
      metadata := metadata }
  (c, { c.data with entries := insertEntry c.data.entries action_ref entry })

/-- `Cache::remove` likewise takes `&self` and rewrites only the backing
file: the returned pair is (the unchanged in-memory cache, the written
`CacheData`). -/
def Cache.remove (c : Cache) (action_ref : String) : Cache × CacheData :=
  (c, { c.data with entries := removeEntry c.data.entries action_ref })

/-- The observable state of the backing cache file for `load_or_create`:
missing, existing but unreadable (`fs::read_to_string` fails), or readable
with `parsed` the result of `serde_json::from_str::<CacheData>` on its
content (`none` for malformed JSON). -/
inductive CacheFileState where
  | missing
  | unreadable
  | readable (parsed : Option CacheData)
deriving DecidableEq, Repr

/-- `cache.rs` `Cache::load_or_create`.  A missing file yields the literal
`CacheData \x7b version: 1, ..Default::default() \x7d`; a readable file
yields `serde_json::from_str(..).unwrap_or_default()`; a read failure is
propagated with `?`. -/
def load_or_create (file : CacheFileState) : Except String Cache :=
  match file with
  | .missing => .ok ⟨⟨1, []⟩, cacheFileName⟩
  | .unreadable => .error "failed to read cache file"
  | .readable parsed => .ok ⟨parsed.getD CacheData.defaultData, cacheFileName⟩

/-! ## Sandbox executor (`src/executor.rs`) -/

/-- `executor.rs` `BuildOutput`: one artifact reported through the host
callback. -/
structure BuildOutput where
  id : String
  json : String
  output_type : String
deriving DecidableEq, Repr

/-- The `__gha_build(id, json, type)` host closure registered in the
sandbox's global scope: appends `(id, json, type.unwrap_or("workflow"))` to
the shared output collection. -/
def hostBuildCallback (outputs : List BuildOutput) (id json : String)
    (output_type : Option String) : List BuildOutput :=
  outputs ++ [{ id := id, json := json, output_type := output_type.getD "workflow" }]

/-- The observable behavior of evaluating one bundled script inside the
QuickJS sandbox: the ordered list of `__gha_build(id, json, type?)` calls the
script makes, and the evaluation error, if the interpreter raised one.  The
interpreter itself is external to the repository; `execute_js` is modelled as
a function of this behavior. -/
structure SandboxEval where
  calls : List (String × String × Option String)
  evalError : Option String
deriving DecidableEq, Repr

/-- `executor.rs` `execute_js`: registers `hostBuildCallback` over an empty
collection, evaluates the script (each call appends one triple in call
order), and fails on an interpreter-level error.  After the context and
runtime are dropped the collection is reclaimed and returned; the
`Rc::try_unwrap` reclaim in the source cannot fail there, since the only
other `Rc` clone lives in the dropped context. -/
def execute_js (ev : SandboxEval) : Except String (List BuildOutput) :=
  let outputs := ev.calls.foldl (fun acc c => hostBuildCallback acc c.1 c.2.1 c.2.2) []
  match ev.evalError with
  | some e => .error ("QuickJS evaluation error: " ++ e)
  | none => .ok outputs

/-- The per-line contribution of one iteration of the `remove_imports` loop
(`executor.rs` lines 82-109): `[]` when the line is skipped, otherwise the
single string pushed onto `result`. -/
def removeImportsLine (line : String) : List String :=
  let trimmed := rustTrim line
  if rustStartsWith trimmed "import " || rustStartsWith trimmed "import\x7b" then
    []
  else if rustStartsWith trimmed "export " then
    if rustStartsWith trimmed "export default " then
      [String.mk (trimStartMatchesL "export default ".data trimmed.data)]
    else if rustStartsWith trimmed "export \x7b" || rustStartsWith trimmed "export type " then
      []
    else
      [String.mk (removeFirstOccL "export ".data trimmed.data)]
  else
    [line]

/-- `executor.rs` `remove_imports`: iterate over `source.lines()`, pushing
each line's contribution, and join the result with `"\n"`. -/
def remove_imports (source : String) : String :=
  String.intercalate "\n" ((rustLines source).flatMap removeImportsLine)

/-! ## Compilation driver (`src/builder.rs`) -/

/-- The observable outcome of spawning one external command
(`Command::output()`): the process ran with the given success flag, stdout
and stderr, or spawning itself failed (interpreter not installed). -/
inductive CmdResult where
  | completed (success : Bool) (stdout stderr : String)
  | spawnFailed
deriving DecidableEq, Repr

/-- `builder.rs` `execute_workflow_npx`: run `npx tsx` on the workflow file;
on success return its stdout, on process failure report its stderr, and when
`tsx` cannot be spawned retry once with `npx ts-node` the same way. -/
def execute_workflow_npx (tsx tsNode : CmdResult) : Except String String :=
  match tsx with
  | .completed true out _ => .ok out
  | .completed false _ err => .error ("Failed to execute workflow:\n" ++ err)
  | .spawnFailed =>
    match tsNode with
    | .completed true out _ => .ok out
    | .completed false _ err => .error ("Failed to execute workflow:\n" ++ err)
    | .spawnFailed => .error "Neither tsx nor ts-node is available"

/-- The single Workflow-kind artifact built from the fallback interpreter's
stdout, named after the workflow file's stem (`builder.rs` lines 151-160). -/
def fallbackArtifact (stem json : String) : List BuildOutput :=
  [{ id := stem, json := json, output_type := "workflow" }]

/-- Artifact selection in `WorkflowBuilder::build_workflow` (`builder.rs`
lines 138-192): `runtimeExists` is whether `generated/index.js` exists on
disk, `sandbox` the result of the QuickJS path (not consulted when the
runtime prelude is absent), `npx` the result of the external-interpreter
fallback (only consulted on the fallback paths), and `stem` the workflow
file's stem. -/
def selectBuildOutputs (runtimeExists : Bool)
    (sandbox : Except String (List BuildOutput))
    (npx : Except String String) (stem : String) :
    Except String (List BuildOutput) :=
  if runtimeExists then
    match sandbox with
    | .ok outputs =>
      if outputs.isEmpty then npx.map (fallbackArtifact stem) else .ok outputs
    | .error _ => npx.map (fallbackArtifact stem)
  else
    npx.map (fallbackArtifact stem)

/-- The condition under which the external-interpreter fallback runs. -/
def fallbackTriggered (runtimeExists : Bool)
    (sandbox : Except String (List BuildOutput)) : Prop :=
  runtimeExists = false ∨ sandbox = .ok [] ∨ ∃ e, sandbox = .error e

/-- A `serde_yaml::Value` document, as consumed by
`validate_workflow_yaml`.  Mappings are association lists of value pairs. -/
inductive YamlValue where
  | nullV
  | boolV (b : Bool)
  | numV (n : Int)
  | strV (s : String)
  | seqV (elems : List YamlValue)
  | mapV (pairs : List (YamlValue × YamlValue))

/-- `serde_yaml` mapping key test against `Value::String(key)`. -/
def yamlKeyIs (v : YamlValue) (key : String) : Bool :=
  match v with
  | .strV s => s == key
  | _ => false

/-- `Mapping::contains_key(Value::String(key))`. -/
def mappingContainsStrKey (pairs : List (YamlValue × YamlValue)) (key : String) : Bool :=
  pairs.any fun kv => yamlKeyIs kv.1 key

/-- `builder.rs` `validate_workflow_yaml`, applied to the parsed document:
the value must be a mapping, contain an `on` key, and contain a `jobs` key,
with an error naming the missing piece otherwise. -/
def validate_workflow_yaml (value : YamlValue) : Except String Unit :=
  match value with
  | .mapV pairs =>
    if mappingContainsStrKey pairs "on" then
      if mappingContainsStrKey pairs "jobs" then
        .ok ()
      else
        .error "Workflow missing required \x27jobs\x27 field"
    else
      .error "Workflow missing required \x27on\x27 field"
  | _ => .error "Workflow must be a YAML mapping"

/-- The validation step of the per-artifact loop in
`WorkflowBuilder::build_workflow` (`builder.rs` lines 199-201): only
artifacts whose `output_type` is `"workflow"` are validated. -/
def validateArtifactYaml (output_type : String) (doc : YamlValue) : Except String Unit :=
  if output_type == "workflow" then validate_workflow_yaml doc else .ok ()

/-! ## Declaration generator (`src/generator/mod.rs`, `src/generator/types.rs`) -/

/-- `generator/mod.rs` `action_ref_to_interface_name`: split on the
separators `/ @ - .`, drop empty segments, capitalize each segment's first
character, and concatenate.  (Rust `char::to_uppercase` is modelled by
`Char.toUpper`, which agrees on ASCII; the multi-character expansions of a
few non-ASCII letters are not modelled.) -/
def action_ref_to_interface_name (action_ref : String) : String :=
  String.join (((splitOnChars ['/', '@', '-', '.'] action_ref.data).filter (· ≠ [])).map
    fun seg =>
      match seg with
      | [] => ""
      | first :: rest => String.mk (first.toUpper :: rest))

/-- `generator/mod.rs` `action_ref_to_filename`: replace `/ @ .` with `-`
and append `.d.ts`. -/
def action_ref_to_filename (action_ref : String) : String :=
  String.mk (action_ref.data.map fun c =>
    if c = '/' || c = '@' || c = '.' then '-' else c) ++ ".d.ts"

/-- `generator/mod.rs` `action_ref_to_module_name`: the filename with the
trailing `.d.ts` removed. -/
def action_ref_to_module_name (action_ref : String) : String :=
  String.mk (action_ref.data.map fun c =>
    if c = '/' || c = '@' || c = '.' then '-' else c)

/-- `generator/types.rs` `infer_type_from_input` needs Rust
`str::parse::<i64>`: optional sign followed by at least one ASCII digit,
with the value in the `i64` range. -/
def rustParseI64Ok (s : String) : Bool :=
  let core :=
    match s.data with
    | '+' :: rest => some (rest, true)
    | '-' :: rest => some (rest, false)
    | rest => some (rest, true)
  match core with
  | some (digits, positive) =>
    !digits.isEmpty && digits.all (·.isDigit) &&
      (let v := digits.foldl (fun acc c => acc * 10 + (c.toNat - 48)) 0
       if positive then v ≤ 9223372036854775807 else v ≤ 9223372036854775808)
  | none => false

/-- Digit-run helper for the `f64` grammar: consume leading ASCII digits. -/
def spanDigits (s : List Char) : List Char × List Char :=
  (s.takeWhile (·.isDigit), s.dropWhile (·.isDigit))

/-- Exponent part of the Rust `f64` grammar: `('e'|'E') sign? digit+`, or
empty. -/
def f64ExpOk (s : List Char) : Bool :=
  match s with
  | [] => true
  | e :: rest =>
    (e == 'e' || e == 'E') &&
      (let rest' := match rest with
        | '+' :: r => r
        | '-' :: r => r
        | r => r
       !rest'.isEmpty && rest'.all (·.isDigit))

/-- Mantissa-plus-exponent part of the Rust `f64` grammar:
`digit+ ('.' digit*)? exp?` or `'.' digit+ exp?`. -/
def f64BodyOk (s : List Char) : Bool :=
  match spanDigits s with
  | ([], '.' :: rest) =>
    let (frac, rest') := spanDigits rest
    !frac.isEmpty && f64ExpOk rest'
  | ([], _) => false
  | (_, rest) =>
    match rest with
    | '.' :: rest' =>
      let (_, rest'') := spanDigits rest'
      f64ExpOk rest''
    | _ => f64ExpOk rest

/-- ASCII-lower-case a character list (for the case-insensitive `inf` /
`nan` forms and `str::to_lowercase`; Unicode-only case mappings are not
modelled). -/
def asciiLowerL (s : List Char) : List Char :=
  s.map Char.toLower

/-- Rust `str::parse::<f64>` success, as a grammar test:
`sign? ('inf' | 'infinity' | 'nan' | number)` with `number` per
`f64BodyOk`. -/
def rustParseF64Ok (s : String) : Bool :=
  let body :=
    match s.data with
    | '+' :: rest => rest
    | '-' :: rest => rest
    | rest => rest
  let lower := asciiLowerL body
  lower == "inf".data || lower == "infinity".data || lower == "nan".data || f64BodyOk body

/-- `generator/types.rs` `infer_type_from_input`: a boolean-literal default
(case-insensitive) gives `boolean`; a default parseable as `i64` or `f64`
gives `number` unless it contains a `'.'` and fails the `f64` parse; else
`string`. -/
def infer_type_from_input (input : ActionInput) : String :=
  match input.default with
  | some dflt =>
    let default_lower := String.mk (asciiLowerL dflt.data)
    if default_lower == "true" || default_lower == "false" then
      "boolean"
    else if rustParseI64Ok dflt || rustParseF64Ok dflt then
      if !dflt.data.contains '.' || rustParseF64Ok dflt then
        "number"
      else
        "string"
    else
      "string"
  | none => "string"

/-- `generator/types.rs` `generate_input_field`: the JSDoc block (trimmed
description lines, `@default`, `@deprecated`) followed by the field
declaration, quoting names containing `'-'` or `'.'`. -/
def generate_input_field (name : String) (input : ActionInput) : String :=
  let descPart :=
    match input.description with
    | some desc =>
      String.join ((rustLines desc).map fun line => "     * " ++ rustTrim line ++ "\n")
    | none => ""
  let defaultPart :=
    match input.default with
    | some dflt => "     * @default " ++ dflt ++ "\n"
    | none => ""
  let deprecationPart :=
    match input.deprecation_message with
    | some dep => "     * @deprecated " ++ dep ++ "\n"
    | none => ""
  let optional_marker := if input.required.getD false then "" else "?"
  let field_type := infer_type_from_input input
  let field_name :=
    if name.data.contains '-' || name.data.contains '.' then "\x27" ++ name ++ "\x27" else name
  "    /**\n" ++ descPart ++ defaultPart ++ deprecationPart ++ "     */\n" ++
    "    " ++ field_name ++ optional_marker ++ ": " ++ field_type ++ ";\n"

/-- `generator/types.rs` `generate_inputs_interface`: interface JSDoc (the
metadata description or name, and a derived `@see` link) plus one field per
input definition, in the map's iteration order. -/
def generate_inputs_interface (interface_name : String) (metadata : ActionMetadata) : String :=
  let fields :=
    match metadata.inputs with
    | some inputs => String.join (inputs.map fun p => generate_input_field p.1 p.2)
    | none => ""
  "/**\n * " ++ (metadata.description.getD metadata.name) ++ "\n" ++
    " * @see https://github.com/" ++
      String.mk (replaceAllL "v".data "/v".data (asciiLowerL interface_name.data)) ++ "\n */\n" ++
    "export interface " ++ interface_name ++ "Inputs \x7b\n" ++ fields ++ "\x7d"

/-- `generator/types.rs` `generate_outputs_interface`: one `string`-typed
field per output name, each with its optional JSDoc description, in the
map's iteration order. -/
def generate_outputs_interface (interface_name : String)
    (outputs : List (String × ActionOutput)) : String :=
  let fields := String.join (outputs.map fun p =>
    let descPart :=
      match p.2.description with
      | some desc =>
        "    /**\n" ++
          String.join ((rustLines desc).map fun line => "     * " ++ rustTrim line ++ "\n") ++
          "     */\n"
      | none => ""
    let field_name :=
      if p.1.data.contains '-' || p.1.data.contains '.' then "\x27" ++ p.1 ++ "\x27" else p.1
    descPart ++ "    " ++ field_name ++ ": string;\n")
  "export interface " ++ interface_name ++ "Outputs \x7b\n" ++ fields ++ "\x7d"

/-- `generator/types.rs` `generate_type_definition`: header comment, the
`JobStep` type import, the inputs interface, and — only when output
definitions exist and are non-empty — the outputs interface. -/
def generate_type_definition (action_ref : String) (metadata : ActionMetadata) : String :=
  let interface_name := action_ref_to_interface_name action_ref
  let outputsPart :=
    match metadata.outputs with
    | some outputs =>
      if outputs.isEmpty then ""
      else generate_outputs_interface interface_name outputs ++ "\n\n"
    | none => ""
  "// Auto-generated from " ++ action_ref ++ "\n// Do not edit manually\n\n" ++
    "import type \x7b JobStep \x7d from \x27./base\x27;\n\n" ++
    generate_inputs_interface interface_name metadata ++ "\n\n" ++
    outputsPart

/-- `generator/mod.rs` `ActionTypeInfo`: the per-reference summary that
feeds the combined index generation (the DeclarationBundle's runtime half). -/
structure ActionTypeInfo where
  action_ref : String
  interface_name : String
  module_name : String
  has_outputs : Bool
  output_names : List String
deriving DecidableEq, Repr

/-- The pure core of `TypeGenerator::generate_type_from_metadata`
(`generator/mod.rs` lines 130-162): the declaration text written to the
per-reference file together with the `ActionTypeInfo` (output names
collected from the metadata and sorted). -/
def generate_type_from_metadata (action_ref : String) (metadata : ActionMetadata) :
    String × ActionTypeInfo :=
  let output_names := ((metadata.outputs.getD []).map (·.1)).mergeSort (· ≤ ·)
  (generate_type_definition action_ref metadata,
   { action_ref := action_ref
     interface_name := action_ref_to_interface_name action_ref
     module_name := action_ref_to_module_name action_ref
     has_outputs := !output_names.isEmpty
     output_names := output_names })

/-! ## Spec-side definitions and concrete inputs used by the claim theorems -/

/-- The per-line mapping of the module-syntax normalization, written from
the (amended) specification wording: a line whose trimmed form starts with
`import ` or `import\x7b` is dropped; a line `export default X` becomes `X`
with every further leading repetition of `export default ` removed; a bare
`export \x7b ... \x7d` re-export line and every `export type ` line
(re-export or type-alias declaration) is dropped; any other line starting
`export ` becomes the line with the first `export ` removed (the trimmed
declaration); every other line passes through unchanged. -/
def specLineMap (line : String) : List String :=
  let t := rustTrim line
  if rustStartsWith t "import " || rustStartsWith t "import\x7b" then
    []
  else if rustStartsWith t "export default " then
    [String.mk (trimStartMatchesL "export default ".data t.data)]
  else if rustStartsWith t "export \x7b" || rustStartsWith t "export type " then
    []
  else if rustStartsWith t "export " then
    [String.mk (removeFirstOccL "export ".data t.data)]
  else
    [line]

/-- Concrete metadata used by the witness theorems. -/
def demoMeta : ActionMetadata := ⟨"Checkout", none, none, none, none⟩

/-- Concrete cache entry used by the witness theorems. -/
def demoEntry : CacheEntry := ⟨"actions/checkout@v4", "hash", 100, demoMeta⟩

/-- Concrete cache state used by the witness theorems. -/
def demoCache : Cache := ⟨⟨1, [("actions/checkout@v4", demoEntry)]⟩, cacheFileName⟩

/-- Concrete metadata with inputs and outputs used by the generator
theorems. -/
def demoGenMeta : ActionMetadata :=
  { name := "Checkout"
    description := some "Checkout a Git repository"
    inputs := some [("repository",
      { description := some "Repository name"
        required := some false
        default := some "42"
        deprecation_message := none })]
    outputs := some [("commit", { description := some "The commit SHA", value := none }),
                     ("ref", { description := none, value := none })]
    runs := none }

/-! ## Reference extractor (`src/parser/extractor.rs`)

The syntax-tree types mirror the `oxc_ast` variants that
`ActionRefExtractor` matches on; every variant the extractor's `_ => \x7b\x7d`
arms ignore is collapsed into an `other...` constructor.  Constructors carry
exactly the fields the extractor can reach (e.g. `assignmentExpression`
carries only `right`: the left-hand side is an `AssignmentTarget`, not an
`Expression`, in `oxc`). -/

mutual

inductive Expression where
  | callExpression (callee : Expression) (arguments : List Argument)
  | newExpression (arguments : List Argument)
  | arrayExpression (elements : List ArrayElement)
  | objectExpression (properties : List ObjectPropertyKind)
  | arrowFunctionExpression (isExprBody : Bool) (body : List Statement)
  | functionExpression (body : Option (List Statement))
  | parenthesizedExpression (e : Expression)
  | sequenceExpression (exprs : List Expression)
  | conditionalExpression (test consequent alternate : Expression)
  | logicalExpression (left right : Expression)
  | binaryExpression (left right : Expression)
  | unaryExpression (argument : Expression)
  | assignmentExpression (right : Expression)
  | computedMemberExpression (object index : Expression)
  | staticMemberExpression (object : Expression)
  | privateFieldExpression (object : Expression)
  | chainExpression (element : ChainElement)
  | awaitExpression (argument : Expression)
  | yieldExpression (argument : Option Expression)
  | templateLiteral (substitutions : List Expression)
  | taggedTemplateExpression (tag : Expression) (substitutions : List Expression)
  | identifier (name : String)
  | stringLiteral (value : String)
  | otherExpression

inductive Argument where
  | spreadElement (argument : Expression)
  | expr (e : Expression)

inductive ArrayElement where
  | spreadElement (argument : Expression)
  | elision
  | expr (e : Expression)

inductive ObjectPropertyKind where
  | objectProperty (value : Expression)
  | spreadProperty (argument : Expression)

inductive ChainElement where
  | callExpression (callee : Expression) (arguments : List Argument)
  | tsNonNullExpression (e : Expression)
  | computedMemberExpression (object index : Expression)
  | staticMemberExpression (object : Expression)
  | privateFieldExpression (object : Expression)

inductive Statement where
  | variableDeclaration (declarators : List (Option Expression))
  | expressionStatement (e : Expression)
  | exportNamedDeclaration (declaration : Option Declaration)
  | exportDefaultDeclaration (expression : Option Expression)
  | blockStatement (body : List Statement)
  | ifStatement (test : Expression) (consequent : Statement) (alternate : Option Statement)
  | forStatement (body : Statement)
  | whileStatement (test : Expression) (body : Statement)
  | returnStatement (argument : Option Expression)
  | otherStatement

inductive Declaration where
  | variableDeclaration (declarators : List (Option Expression))
  | functionDeclaration (body : Option (List Statement))
  | otherDeclaration

end

/-- The recognition test in `visit_call_expression`: the callee is the bare
identifier `getAction` and the first argument is a string literal; on a hit
the literal's value. -/
def recognizedArg (callee : Expression) (args : List Argument) : Option String :=
  match callee, args with
  | .identifier nm, .expr (.stringLiteral v) :: _ =>
    if nm = "getAction" then some v else none
  | _, _ => none

/-! The extraction walk.  The Rust visitor mutates a `HashSet<String>`;
since only the final set is observable, the walk is modelled as the union
of the inserts each visit performs (a `Finset String`, deduplicated like
the `HashSet`).  Each function below mirrors one `visit_*` method or one
loop inside one, edge by edge — in particular `chainRefs` visits only the
`object` of a chain computed member (source lines 198-200), unlike the
plain computed member which visits both `object` and `expression`. -/

set_option maxHeartbeats 1600000

mutual

def exprRefs : Expression → Finset String
  | .callExpression callee args => callRefs callee args
  | .newExpression args => argListRefs args
  | .arrayExpression elems => elemListRefs elems
  | .objectExpression props => propListRefs props
  | .arrowFunctionExpression isExprBody body =>
    if isExprBody then exprBodyStmtListRefs body else stmtListRefs body
  | .functionExpression body => optStmtListRefs body
  | .parenthesizedExpression e => exprRefs e
  | .sequenceExpression exprs => exprListRefs exprs
  | .conditionalExpression t c a => exprRefs t ∪ exprRefs c ∪ exprRefs a
  | .logicalExpression l r => exprRefs l ∪ exprRefs r
  | .binaryExpression l r => exprRefs l ∪ exprRefs r
  | .unaryExpression e => exprRefs e
  | .assignmentExpression right => exprRefs right
  | .computedMemberExpression o i => exprRefs o ∪ exprRefs i
  | .staticMemberExpression o => exprRefs o
  | .privateFieldExpression o => exprRefs o
  | .chainExpression el => chainRefs el
  | .awaitExpression e => exprRefs e
  | .yieldExpression arg => optExprRefs arg
  | .templateLiteral subs => exprListRefs subs
  | .taggedTemplateExpression tag subs => exprRefs tag ∪ exprListRefs subs
  | .identifier _ => ∅
  | .stringLiteral _ => ∅
  | .otherExpression => ∅

termination_by e => sizeOf e
def callRefs (callee : Expression) (args : List Argument) : Finset String :=
  (match recognizedArg callee args with
   | some v => {v}
   | none => ∅) ∪ exprRefs callee ∪ argListRefs args
termination_by sizeOf callee + sizeOf args
decreasing_by
  · simp_wf
    cases args <;> simp_arith
  · simp_wf
    cases callee <;> simp_arith

def argListRefs : List Argument → Finset String
  | [] => ∅
  | .spreadElement e :: rest => exprRefs e ∪ argListRefs rest
  | .expr e :: rest => exprRefs e ∪ argListRefs rest

termination_by l => sizeOf l
def elemListRefs : List ArrayElement → Finset String
  | [] => ∅
  | .spreadElement e :: rest => exprRefs e ∪ elemListRefs rest
  | .elision :: rest => elemListRefs rest
  | .expr e :: rest => exprRefs e ∪ elemListRefs rest

termination_by l => sizeOf l
def propListRefs : List ObjectPropertyKind → Finset String
  | [] => ∅
  | .objectProperty v :: rest => exprRefs v ∪ propListRefs rest
  | .spreadProperty e :: rest => exprRefs e ∪ propListRefs rest

termination_by l => sizeOf l
def chainRefs : ChainElement → Finset String
  | .callExpression callee args => callRefs callee args
  | .tsNonNullExpression e => exprRefs e
  | .computedMemberExpression o _ => exprRefs o
  | .staticMemberExpression o => exprRefs o
  | .privateFieldExpression o => exprRefs o

termination_by el => sizeOf el
def exprListRefs : List Expression → Finset String
  | [] => ∅
  | e :: rest => exprRefs e ∪ exprListRefs rest

termination_by l => sizeOf l
def optExprRefs : Option Expression → Finset String
  | none => ∅
  | some e => exprRefs e

termination_by o => sizeOf o
def exprBodyStmtListRefs : List Statement → Finset String
  | [] => ∅
  | .expressionStatement e :: rest => exprRefs e ∪ exprBodyStmtListRefs rest
  | .variableDeclaration _ :: rest => exprBodyStmtListRefs rest
  | .exportNamedDeclaration _ :: rest => exprBodyStmtListRefs rest
  | .exportDefaultDeclaration _ :: rest => exprBodyStmtListRefs rest
  | .blockStatement _ :: rest => exprBodyStmtListRefs rest
  | .ifStatement _ _ _ :: rest => exprBodyStmtListRefs rest
  | .forStatement _ :: rest => exprBodyStmtListRefs rest
  | .whileStatement _ _ :: rest => exprBodyStmtListRefs rest
  | .returnStatement _ :: rest => exprBodyStmtListRefs rest
  | .otherStatement :: rest => exprBodyStmtListRefs rest

termination_by l => sizeOf l
def stmtRefs : Statement → Finset String
  | .variableDeclaration decls => optExprListRefs decls
  | .expressionStatement e => exprRefs e
  | .exportNamedDeclaration d => optDeclRefs d
  | .exportDefaultDeclaration e => optExprRefs e
  | .blockStatement body => stmtListRefs body
  | .ifStatement t cons alt => exprRefs t ∪ stmtRefs cons ∪ optStmtRefs alt
  | .forStatement body => stmtRefs body
  | .whileStatement t body => exprRefs t ∪ stmtRefs body
  | .returnStatement arg => optExprRefs arg
  | .otherStatement => ∅

termination_by st => sizeOf st
def optStmtRefs : Option Statement → Finset String
  | none => ∅
  | some st => stmtRefs st

termination_by o => sizeOf o
def optExprListRefs : List (Option Expression) → Finset String
  | [] => ∅
  | some e :: rest => exprRefs e ∪ optExprListRefs rest
  | none :: rest => optExprListRefs rest

termination_by l => sizeOf l
def declRefs : Declaration → Finset String
  | .variableDeclaration decls => optExprListRefs decls
  | .functionDeclaration body => optStmtListRefs body
  | .otherDeclaration => ∅

termination_by d => sizeOf d
def optDeclRefs : Option Declaration → Finset String
  | none => ∅
  | some d => declRefs d

termination_by o => sizeOf o
def optStmtListRefs : Option (List Statement) → Finset String
  | none => ∅
  | some l => stmtListRefs l

termination_by o => sizeOf o
def stmtListRefs : List Statement → Finset String
  | [] => ∅
  | st :: rest => stmtRefs st ∪ stmtListRefs rest

termination_by l => sizeOf l
end

/-- `ActionRefExtractor::visit_program` over a parsed program (its statement
list): the extracted, deduplicated set of references.  Extraction is total —
unrecognized call shapes and unhandled syntax contribute nothing and are
never errors. -/
def programRefs (program : List Statement) : Finset String :=
  stmtListRefs program

/-! Spec-side reachability: `reachExpr s e` says a recognized call
`getAction("s")` (bare-identifier callee, string-literal first argument)
occurs in `e`, nested only through the traversal positions the
specification lists — call callees and arguments (including spread), array
elements (including spread, skipping elisions), object property values
(including spread), arrow bodies (expression- and block-bodied) and
function bodies, parenthesized / sequence / conditional / logical / binary
/ unary / assignment(right) expressions, member accesses (computed: object
and index; static and private: object), optional chains (call elements,
non-null assertions, and member OBJECTS — a chain computed member's index
is not followed), await / yield arguments, and template-literal
substitutions (plain and tagged), plus the statement-level positions
(declarator initializers, expression statements, exported declarations,
blocks, if tests/branches, for and while bodies, return arguments). -/

mutual

def reachExpr (s : String) : Expression → Bool
  | .callExpression callee args => reachCall s callee args
  | .newExpression args => reachArgList s args
  | .arrayExpression elems => reachElemList s elems
  | .objectExpression props => reachPropList s props
  | .arrowFunctionExpression isExprBody body =>
    if isExprBody then reachExprBodyStmtList s body else reachStmtList s body
  | .functionExpression body => reachOptStmtList s body
  | .parenthesizedExpression e => reachExpr s e
  | .sequenceExpression exprs => reachExprList s exprs
  | .conditionalExpression t c a => reachExpr s t || reachExpr s c || reachExpr s a
  | .logicalExpression l r => reachExpr s l || reachExpr s r
  | .binaryExpression l r => reachExpr s l || reachExpr s r
  | .unaryExpression e => reachExpr s e
  | .assignmentExpression right => reachExpr s right
  | .computedMemberExpression o i => reachExpr s o || reachExpr s i
  | .staticMemberExpression o => reachExpr s o
  | .privateFieldExpression o => reachExpr s o
  | .chainExpression el => reachChain s el
  | .awaitExpression e => reachExpr s e
  | .yieldExpression arg => reachOptExpr s arg
  | .templateLiteral subs => reachExprList s subs
  | .taggedTemplateExpression tag subs => reachExpr s tag || reachExprList s subs
  | .identifier _ => false
  | .stringLiteral _ => false
  | .otherExpression => false

termination_by e => sizeOf e
def reachCall (s : String) (callee : Expression) (args : List Argument) : Bool :=
  recognizedArg callee args == some s || reachExpr s callee || reachArgList s args
termination_by sizeOf callee + sizeOf args
decreasing_by
  · simp_wf
    cases args <;> simp_arith
  · simp_wf
    cases callee <;> simp_arith

def reachArgList (s : String) : List Argument → Bool
  | [] => false
  | .spreadElement e :: rest => reachExpr s e || reachArgList s rest
  | .expr e :: rest => reachExpr s e || reachArgList s rest

termination_by l => sizeOf l
def reachElemList (s : String) : List ArrayElement → Bool
  | [] => false
  | .spreadElement e :: rest => reachExpr s e || reachElemList s rest
  | .elision :: rest => reachElemList s rest
  | .expr e :: rest => reachExpr s e || reachElemList s rest

termination_by l => sizeOf l
def reachPropList (s : String) : List ObjectPropertyKind → Bool
  | [] => false
  | .objectProperty v :: rest => reachExpr s v || reachPropList s rest
  | .spreadProperty e :: rest => reachExpr s e || reachPropList s rest

termination_by l => sizeOf l
def reachChain (s : String) : ChainElement → Bool
  | .callExpression callee args => reachCall s callee args
  | .tsNonNullExpression e => reachExpr s e
  | .computedMemberExpression o _ => reachExpr s o
  | .staticMemberExpression o => reachExpr s o
  | .privateFieldExpression o => reachExpr s o

termination_by el => sizeOf el
def reachExprList (s : String) : List Expression → Bool
  | [] => false
  | e :: rest => reachExpr s e || reachExprList s rest

termination_by l => sizeOf l
def reachOptExpr (s : String) : Option Expression → Bool
  | none => false
  | some e => reachExpr s e

termination_by o => sizeOf o
def reachExprBodyStmtList (s : String) : List Statement → Bool
  | [] => false
  | .expressionStatement e :: rest => reachExpr s e || reachExprBodyStmtList s rest
  | .variableDeclaration _ :: rest => reachExprBodyStmtList s rest
  | .exportNamedDeclaration _ :: rest => reachExprBodyStmtList s rest
  | .exportDefaultDeclaration _ :: rest => reachExprBodyStmtList s rest
  | .blockStatement _ :: rest => reachExprBodyStmtList s rest
  | .ifStatement _ _ _ :: rest => reachExprBodyStmtList s rest
  | .forStatement _ :: rest => reachExprBodyStmtList s rest
  | .whileStatement _ _ :: rest => reachExprBodyStmtList s rest
  | .returnStatement _ :: rest => reachExprBodyStmtList s rest
  | .otherStatement :: rest => reachExprBodyStmtList s rest

termination_by l => sizeOf l
def reachStmt (s : String) : Statement → Bool
  | .variableDeclaration decls => reachOptExprList s decls
  | .expressionStatement e => reachExpr s e
  | .exportNamedDeclaration d => reachOptDecl s d
  | .exportDefaultDeclaration e => reachOptExpr s e
  | .blockStatement body => reachStmtList s body
  | .ifStatement t cons alt => reachExpr s t || reachStmt s cons || reachOptStmt s alt
  | .forStatement body => reachStmt s body
  | .whileStatement t body => reachExpr s t || reachStmt s body
  | .returnStatement arg => reachOptExpr s arg
  | .otherStatement => false

termination_by st => sizeOf st
def reachOptStmt (s : String) : Option Statement → Bool
  | none => false
  | some st => reachStmt s st

termination_by o => sizeOf o
def reachOptExprList (s : String) : List (Option Expression) → Bool
  | [] => false
  | some e :: rest => reachExpr s e || reachOptExprList s rest
  | none :: rest => reachOptExprList s rest

termination_by l => sizeOf l
def reachDecl (s : String) : Declaration → Bool
  | .variableDeclaration decls => reachOptExprList s decls
  | .functionDeclaration body => reachOptStmtList s body
  | .otherDeclaration => false

termination_by d => sizeOf d
def reachOptDecl (s : String) : Option Declaration → Bool
  | none => false
  | some d => reachDecl s d

termination_by o => sizeOf o
def reachOptStmtList (s : String) : Option (List Statement) → Bool
  | none => false
  | some l => reachStmtList s l

termination_by o => sizeOf o
def reachStmtList (s : String) : List Statement → Bool
  | [] => false
  | st :: rest => reachStmt s st || reachStmtList s rest

termination_by l => sizeOf l
end

/-- Spec-side reachability at program level. -/
def reachProgram (s : String) (program : List Statement) : Bool :=
  reachStmtList s program

/-! ## Helper lemmas -/

/-- Wrapped `u64` subtraction agrees with `Nat` subtraction when the
minuend bounds hold. -/
theorem wrapped_sub_eq {a b : Nat} (h1 : a ≤ b) (h2 : b < U64) :
    (b % U64 + U64 - a % U64) % U64 = b - a := by
  have ha : a % U64 = a := Nat.mod_eq_of_lt (lt_of_le_of_lt h1 h2)
  have hb : b % U64 = b := Nat.mod_eq_of_lt h2
  rw [ha, hb, show b + U64 - a = b - a + U64 by omega, Nat.add_mod_right]
  exact Nat.mod_eq_of_lt (by omega)

/-- Looking up the key just inserted finds the new entry. -/
theorem lookupEntry_insertEntry_self (entries : List (String × CacheEntry))
    (k : String) (v : CacheEntry) :
    lookupEntry (insertEntry entries k v) k = some v := by
  induction entries with
  | nil => simp [insertEntry, lookupEntry]
  | cons p rest ih =>
    obtain ⟨k', v'⟩ := p
    by_cases h : k' = k
    · subst h
      simp [insertEntry, lookupEntry]
    · have hbeq : (k' == k) = false := by simpa using h
      simp only [lookupEntry] at ih
      simp [insertEntry, lookupEntry, List.find?, hbeq, ih]

/-- Looking up the key just removed finds nothing. -/
theorem lookupEntry_removeEntry_self (entries : List (String × CacheEntry))
    (k : String) :
    lookupEntry (removeEntry entries k) k = none := by
  induction entries with
  | nil => simp [removeEntry, lookupEntry]
  | cons p rest ih =>
    obtain ⟨k', v'⟩ := p
    by_cases h : k' = k
    · subst h
      simp only [removeEntry, lookupEntry] at ih
      simp [removeEntry, lookupEntry, ih]
    · simp only [removeEntry, lookupEntry] at ih
      simp [removeEntry, lookupEntry, List.find?, h, ih]

/-- `splitFirstAt` finds nothing when the character does not occur. -/
theorem splitFirstAt_not_mem {c : Char} {l : List Char} (h : c ∉ l) :
    splitFirstAt c l = none := by
  induction l with
  | nil => rfl
  | cons a rest ih =>
    simp only [List.mem_cons, not_or] at h
    simp [splitFirstAt, ih h.2, Ne.symm h.1]

/-- `splitFirstAt` splits at the first occurrence. -/
theorem splitFirstAt_append {c : Char} {before after : List Char} (h : c ∉ before) :
    splitFirstAt c (before ++ c :: after) = some (before, after) := by
  induction before with
  | nil => simp [splitFirstAt]
  | cons a rest ih =>
    simp only [List.mem_cons, not_or] at h
    simp [splitFirstAt, ih h.2, Ne.symm h.1]

/-! Mutual induction relating the extraction walk to spec-side
reachability. -/

mutual

theorem mem_exprRefs (s : String) (e : Expression) :
    s ∈ exprRefs e ↔ reachExpr s e = true := by
  cases e with
  | callExpression callee args =>
    have h := mem_callRefs s callee args
    simp only [exprRefs, reachExpr]
    exact h
  | newExpression args =>
    have h := mem_argListRefs s args
    simp only [exprRefs, reachExpr]
    exact h
  | arrayExpression elems =>
    have h := mem_elemListRefs s elems
    simp only [exprRefs, reachExpr]
    exact h
  | objectExpression props =>
    have h := mem_propListRefs s props
    simp only [exprRefs, reachExpr]
    exact h
  | arrowFunctionExpression isExprBody body =>
    have h1 := mem_exprBodyStmtListRefs s body
    have h2 := mem_stmtListRefs s body
    cases isExprBody <;> simp [exprRefs, reachExpr, h1, h2]
  | functionExpression body =>
    have h := mem_optStmtListRefs s body
    simp only [exprRefs, reachExpr]
    exact h
  | parenthesizedExpression e1 =>
    have h := mem_exprRefs s e1
    simp only [exprRefs, reachExpr]
    exact h
  | sequenceExpression exprs =>
    have h := mem_exprListRefs s exprs
    simp only [exprRefs, reachExpr]
    exact h
  | conditionalExpression t c a =>
    have h1 := mem_exprRefs s t
    have h2 := mem_exprRefs s c
    have h3 := mem_exprRefs s a
    simp only [exprRefs, reachExpr, Finset.mem_union, Bool.or_eq_true, h1, h2, h3]
  | logicalExpression l r =>
    have h1 := mem_exprRefs s l
    have h2 := mem_exprRefs s r
    simp only [exprRefs, reachExpr, Finset.mem_union, Bool.or_eq_true, h1, h2]
  | binaryExpression l r =>
    have h1 := mem_exprRefs s l
    have h2 := mem_exprRefs s r
    simp only [exprRefs, reachExpr, Finset.mem_union, Bool.or_eq_true, h1, h2]
  | unaryExpression e1 =>
    have h := mem_exprRefs s e1
    simp only [exprRefs, reachExpr]
    exact h
  | assignmentExpression right =>
    have h := mem_exprRefs s right
    simp only [exprRefs, reachExpr]
    exact h
  | computedMemberExpression o i =>
    have h1 := mem_exprRefs s o
    have h2 := mem_exprRefs s i
    simp only [exprRefs, reachExpr, Finset.mem_union, Bool.or_eq_true, h1, h2]
  | staticMemberExpression o =>
    have h := mem_exprRefs s o
    simp only [exprRefs, reachExpr]
    exact h
  | privateFieldExpression o =>
    have h := mem_exprRefs s o
    simp only [exprRefs, reachExpr]
    exact h
  | chainExpression el =>
    have h := mem_chainRefs s el
    simp only [exprRefs, reachExpr]
    exact h
  | awaitExpression e1 =>
    have h := mem_exprRefs s e1
    simp only [exprRefs, reachExpr]
    exact h
  | yieldExpression arg =>
    have h := mem_optExprRefs s arg
    simp only [exprRefs, reachExpr]
    exact h
  | templateLiteral subs =>
    have h := mem_exprListRefs s subs
    simp only [exprRefs, reachExpr]
    exact h
  | taggedTemplateExpression tag subs =>
    have h1 := mem_exprRefs s tag
    have h2 := mem_exprListRefs s subs
    simp only [exprRefs, reachExpr, Finset.mem_union, Bool.or_eq_true, h1, h2]
  | identifier nm => simp [exprRefs, reachExpr]
  | stringLiteral v => simp [exprRefs, reachExpr]
  | otherExpression => simp [exprRefs, reachExpr]
termination_by sizeOf e

theorem mem_callRefs (s : String) (callee : Expression) (args : List Argument) :
    s ∈ callRefs callee args ↔ reachCall s callee args = true := by
  have h1 := mem_exprRefs s callee
  have h2 := mem_argListRefs s args
  simp only [callRefs, reachCall, Finset.mem_union, Bool.or_eq_true, h1, h2]
  cases hrec : recognizedArg callee args with
  | none => simp
  | some v =>
    simp
    tauto
termination_by sizeOf callee + sizeOf args
decreasing_by
  · simp_wf
    cases args <;> simp_arith
  · simp_wf
    cases callee <;> simp_arith

theorem mem_argListRefs (s : String) (l : List Argument) :
    s ∈ argListRefs l ↔ reachArgList s l = true := by
  cases l with
  | nil => simp [argListRefs, reachArgList]
  | cons a rest =>
    have h2 := mem_argListRefs s rest
    cases a with
    | spreadElement e =>
      have h1 := mem_exprRefs s e
      simp only [argListRefs, reachArgList, Finset.mem_union, Bool.or_eq_true, h1, h2]
    | expr e =>
      have h1 := mem_exprRefs s e
      simp only [argListRefs, reachArgList, Finset.mem_union, Bool.or_eq_true, h1, h2]
termination_by sizeOf l

theorem mem_elemListRefs (s : String) (l : List ArrayElement) :
    s ∈ elemListRefs l ↔ reachElemList s l = true := by
  cases l with
  | nil => simp [elemListRefs, reachElemList]
  | cons a rest =>
    have h2 := mem_elemListRefs s rest
    cases a with
    | spreadElement e =>
      have h1 := mem_exprRefs s e
      simp only [elemListRefs, reachElemList, Finset.mem_union, Bool.or_eq_true, h1, h2]
    | elision =>
      simp only [elemListRefs, reachElemList, h2]
    | expr e =>
      have h1 := mem_exprRefs s e
      simp only [elemListRefs, reachElemList, Finset.mem_union, Bool.or_eq_true, h1, h2]
termination_by sizeOf l

theorem mem_propListRefs (s : String) (l : List ObjectPropertyKind) :
    s ∈ propListRefs l ↔ reachPropList s l = true := by
  cases l with
  | nil => simp [propListRefs, reachPropList]
  | cons p rest =>
    have h2 := mem_propListRefs s rest
    cases p with
    | objectProperty v =>
      have h1 := mem_exprRefs s v
      simp only [propListRefs, reachPropList, Finset.mem_union, Bool.or_eq_true, h1, h2]
    | spreadProperty e =>
      have h1 := mem_exprRefs s e
      simp only [propListRefs, reachPropList, Finset.mem_union, Bool.or_eq_true, h1, h2]
termination_by sizeOf l

theorem mem_chainRefs (s : String) (el : ChainElement) :
    s ∈ chainRefs el ↔ reachChain s el = true := by
  cases el with
  | callExpression callee args =>
    have h := mem_callRefs s callee args
    simp only [chainRefs, reachChain]
    exact h
  | tsNonNullExpression e =>
    have h := mem_exprRefs s e
    simp only [chainRefs, reachChain]
    exact h
  | computedMemberExpression o i =>
    have h := mem_exprRefs s o
    simp only [chainRefs, reachChain]
    exact h
  | staticMemberExpression o =>
    have h := mem_exprRefs s o
    simp only [chainRefs, reachChain]
    exact h
  | privateFieldExpression o =>
    have h := mem_exprRefs s o
    simp only [chainRefs, reachChain]
    exact h
termination_by sizeOf el

theorem mem_exprListRefs (s : String) (l : List Expression) :
    s ∈ exprListRefs l ↔ reachExprList s l = true := by
  cases l with
  | nil => simp [exprListRefs, reachExprList]
  | cons e rest =>
    have h1 := mem_exprRefs s e
    have h2 := mem_exprListRefs s rest
    simp only [exprListRefs, reachExprList, Finset.mem_union, Bool.or_eq_true, h1, h2]
termination_by sizeOf l

theorem mem_optExprRefs (s : String) (o : Option Expression) :
    s ∈ optExprRefs o ↔ reachOptExpr s o = true := by
  cases o with
  | none => simp [optExprRefs, reachOptExpr]
  | some e =>
    have h := mem_exprRefs s e
    simp only [optExprRefs, reachOptExpr]
    exact h
termination_by sizeOf o

theorem mem_exprBodyStmtListRefs (s : String) (l : List Statement) :
    s ∈ exprBodyStmtListRefs l ↔ reachExprBodyStmtList s l = true := by
  cases l with
  | nil => simp [exprBodyStmtListRefs, reachExprBodyStmtList]
  | cons st rest =>
    have h2 := mem_exprBodyStmtListRefs s rest
    cases st with
    | expressionStatement e =>
      have h1 := mem_exprRefs s e
      simp only [exprBodyStmtListRefs, reachExprBodyStmtList, Finset.mem_union,
        Bool.or_eq_true, h1, h2]
    | variableDeclaration decls =>
      simp only [exprBodyStmtListRefs, reachExprBodyStmtList, h2]
    | exportNamedDeclaration d =>
      simp only [exprBodyStmtListRefs, reachExprBodyStmtList, h2]
    | exportDefaultDeclaration e =>
      simp only [exprBodyStmtListRefs, reachExprBodyStmtList, h2]
    | blockStatement body =>
      simp only [exprBodyStmtListRefs, reachExprBodyStmtList, h2]
    | ifStatement t cons alt =>
      simp only [exprBodyStmtListRefs, reachExprBodyStmtList, h2]
    | forStatement body =>
      simp only [exprBodyStmtListRefs, reachExprBodyStmtList, h2]
    | whileStatement t body =>
      simp only [exprBodyStmtListRefs, reachExprBodyStmtList, h2]
    | returnStatement arg =>
      simp only [exprBodyStmtListRefs, reachExprBodyStmtList, h2]
    | otherStatement =>
      simp only [exprBodyStmtListRefs, reachExprBodyStmtList, h2]
termination_by sizeOf l

theorem mem_stmtRefs (s : String) (st : Statement) :
    s ∈ stmtRefs st ↔ reachStmt s st = true := by
  cases st with
  | variableDeclaration decls =>
    have h := mem_optExprListRefs s decls
    simp only [stmtRefs, reachStmt]
    exact h
  | expressionStatement e =>
    have h := mem_exprRefs s e
    simp only [stmtRefs, reachStmt]
    exact h
  | exportNamedDeclaration d =>
    have h := mem_optDeclRefs s d
    simp only [stmtRefs, reachStmt]
    exact h
  | exportDefaultDeclaration e =>
    have h := mem_optExprRefs s e
    simp only [stmtRefs, reachStmt]
    exact h
  | blockStatement body =>
    have h := mem_stmtListRefs s body
    simp only [stmtRefs, reachStmt]
    exact h
  | ifStatement t cons alt =>
    have h1 := mem_exprRefs s t
    have h2 := mem_stmtRefs s cons
    have h3 := mem_optStmtRefs s alt
    simp only [stmtRefs, reachStmt, Finset.mem_union, Bool.or_eq_true, h1, h2, h3]
  | forStatement body =>
    have h := mem_stmtRefs s body
    simp only [stmtRefs, reachStmt]
    exact h
  | whileStatement t body =>
    have h1 := mem_exprRefs s t
    have h2 := mem_stmtRefs s body
    simp only [stmtRefs, reachStmt, Finset.mem_union, Bool.or_eq_true, h1, h2]
  | returnStatement arg =>
    have h := mem_optExprRefs s arg
    simp only [stmtRefs, reachStmt]
    exact h
  | otherStatement => simp [stmtRefs, reachStmt]
termination_by sizeOf st

theorem mem_optStmtRefs (s : String) (o : Option Statement) :
    s ∈ optStmtRefs o ↔ reachOptStmt s o = true := by
  cases o with
  | none => simp [optStmtRefs, reachOptStmt]
  | some st =>
    have h := mem_stmtRefs s st
    simp only [optStmtRefs, reachOptStmt]
    exact h
termination_by sizeOf o

theorem mem_optExprListRefs (s : String) (l : List (Option Expression)) :
    s ∈ optExprListRefs l ↔ reachOptExprList s l = true := by
  cases l with
  | nil => simp [optExprListRefs, reachOptExprList]
  | cons o rest =>
    have h2 := mem_optExprListRefs s rest
    cases o with
    | some e =>
      have h1 := mem_exprRefs s e
      simp only [optExprListRefs, reachOptExprList, Finset.mem_union, Bool.or_eq_true, h1, h2]
    | none =>
      simp only [optExprListRefs, reachOptExprList, h2]
termination_by sizeOf l

theorem mem_declRefs (s : String) (d : Declaration) :
    s ∈ declRefs d ↔ reachDecl s d = true := by
  cases d with
  | variableDeclaration decls =>
    have h := mem_optExprListRefs s decls
    simp only [declRefs, reachDecl]
    exact h
  | functionDeclaration body =>
    have h := mem_optStmtListRefs s body
    simp only [declRefs, reachDecl]
    exact h
  | otherDeclaration => simp [declRefs, reachDecl]
termination_by sizeOf d

theorem mem_optDeclRefs (s : String) (o : Option Declaration) :
    s ∈ optDeclRefs o ↔ reachOptDecl s o = true := by
  cases o with
  | none => simp [optDeclRefs, reachOptDecl]
  | some d =>
    have h := mem_declRefs s d
    simp only [optDeclRefs, reachOptDecl]
    exact h
termination_by sizeOf o

theorem mem_optStmtListRefs (s : String) (o : Option (List Statement)) :
    s ∈ optStmtListRefs o ↔ reachOptStmtList s o = true := by
  cases o with
  | none => simp [optStmtListRefs, reachOptStmtList]
  | some l =>
    have h := mem_stmtListRefs s l
    simp only [optStmtListRefs, reachOptStmtList]
    exact h
termination_by sizeOf o

theorem mem_stmtListRefs (s : String) (l : List Statement) :
    s ∈ stmtListRefs l ↔ reachStmtList s l = true := by
  cases l with
  | nil => simp [stmtListRefs, reachStmtList]
  | cons st rest =>
    have h1 := mem_stmtRefs s st
    have h2 := mem_stmtListRefs s rest
    simp only [stmtListRefs, reachStmtList, Finset.mem_union, Bool.or_eq_true, h1, h2]
termination_by sizeOf l

end

/-! ## Claim theorems -/

/-- Claim C2: for every cache state, reference, hash and day count,
`should_regenerate` is true iff no entry exists or the stored hash differs,
and `is_expired` is true iff no entry exists or `now - generated_at >
n * 86400`; an entry exactly `n * 86400` seconds old is NOT expired.  `now`
is the clock value read inside `is_expired`; the hypotheses say the clock
and TTL values are in the `u64` range and no entry is generated in the
future. -/
theorem C2_cache_predicates (c : Cache) (ref h : String) (n now : Nat)
    (hnow : now < U64) (hage : n * 86400 < U64)
    (hgen : ∀ e, lookupEntry c.data.entries ref = some e → e.generated_at ≤ now) :
    (c.should_regenerate ref h = true ↔
      lookupEntry c.data.entries ref = none ∨
        ∃ e, lookupEntry c.data.entries ref = some e ∧ e.content_hash ≠ h) ∧
    (c.is_expired ref n now = true ↔
      lookupEntry c.data.entries ref = none ∨
        ∃ e, lookupEntry c.data.entries ref = some e ∧ n * 86400 < now - e.generated_at) ∧
    (∀ e, lookupEntry c.data.entries ref = some e →
      now = e.generated_at + n * 86400 → c.is_expired ref n now = false) := by
  have hmul : n * 24 * 60 * 60 = n * 86400 := by ring
  refine ⟨?_, ?_, ?_⟩
  · cases hlook : lookupEntry c.data.entries ref with
    | none => simp [Cache.should_regenerate, hlook]
    | some e => simp [Cache.should_regenerate, hlook, bne_iff_ne]
  · cases hlook : lookupEntry c.data.entries ref with
    | none => simp [Cache.is_expired, hlook]
    | some e =>
      have hle := hgen e hlook
      simp only [Cache.is_expired, hlook]
      rw [wrapped_sub_eq hle hnow, hmul, Nat.mod_eq_of_lt hage]
      simp [hlook]
  · intro e hlook heq
    have hle := hgen e hlook
    simp only [Cache.is_expired, hlook]
    rw [wrapped_sub_eq hle hnow, hmul, Nat.mod_eq_of_lt hage]
    simp
    omega

/-- Witness for C2 at a concrete cache: a differing hash forces
regeneration, and an entry exactly one TTL-day old is not expired. -/
theorem C2_cache_predicates_witness :
    demoCache.should_regenerate "actions/checkout@v4" "other" = true ∧
    demoCache.is_expired "actions/checkout@v4" 1 (100 + 86400) = false := by
  have hgen : ∀ e, lookupEntry demoCache.data.entries "actions/checkout@v4" = some e →
      e.generated_at ≤ 100 + 86400 := by
    intro e he
    have h2 : some demoEntry = some e := he
    cases Option.some.inj h2
    decide
  have h := C2_cache_predicates demoCache "actions/checkout@v4" "other" 1 (100 + 86400)
    (by decide) (by decide) hgen
  exact ⟨h.1.mpr (Or.inr ⟨demoEntry, rfl, by decide⟩), h.2.2 demoEntry rfl (by decide)⟩

/-- Counterexample to claim C3: the source splits on the FIRST `@`
(`splitn(2, '@')`), not the last.  On `"a/b@v1@x"` the part after the last
`@` is `"x"`, yet parsing yields ref-spec `"v1@x"` (and repo `"b"`, not
`"b@v1"`). -/
theorem C3_counterexample :
    ActionRef.parse "a/b@v1@x" = .ok ⟨"a", "b", none, "v1@x"⟩ ∧
    (rustSplitChar "a/b@v1@x" '@').getLast? = some "x" ∧
    "v1@x" ≠ "x" := by
  refine ⟨rfl, rfl, by decide⟩

/-- Claim C3 (amended: the split is on the FIRST `@`): parsing fails when
the string has no `@`; otherwise, writing the input as `before ++ "@" ++
after` with no `@` in `before` (the first-`@` decomposition), `before` must
split into at least two `/`-segments, and on success owner and repo are the
first two segments, the optional sub-path joins the rest, and the ref-spec
is everything after the first `@`. -/
theorem C3_parse_first_at (before after : List Char) (hb : '@' ∉ before) :
    (∀ s : String, '@' ∉ s.data →
      ActionRef.parse s =
        .error ("Invalid action reference format: " ++ s ++
          ". Expected format: owner/repo@ref")) ∧
    splitnTwoAt (String.mk (before ++ '@' :: after)) =
      [String.mk before, String.mk after] ∧
    (∀ p0 p1 rest, rustSplitChar (String.mk before) '/' = p0 :: p1 :: rest →
      ActionRef.parse (String.mk (before ++ '@' :: after)) =
        .ok ⟨p0, p1,
             if rest.isEmpty then none else some (String.intercalate "/" rest),
             String.mk after⟩) ∧
    (∀ p0, rustSplitChar (String.mk before) '/' = [p0] →
      ActionRef.parse (String.mk (before ++ '@' :: after)) =
        .error ("Invalid action reference: " ++ String.mk (before ++ '@' :: after) ++
          ". Expected at least owner/repo")) := by
  have hsplit : splitnTwoAt (String.mk (before ++ '@' :: after)) =
      [String.mk before, String.mk after] := by
    simp [splitnTwoAt, splitFirstAt_append hb]
  refine ⟨?_, hsplit, ?_, ?_⟩
  · intro s hs
    simp [ActionRef.parse, splitnTwoAt, splitFirstAt_not_mem hs]
  · intro p0 p1 rest hsegs
    simp [ActionRef.parse, hsplit, hsegs]
  · intro p0 hsegs
    simp [ActionRef.parse, hsplit, hsegs]

/-- Witness for C3 (amended) at concrete inputs. -/
theorem C3_parse_first_at_witness :
    ActionRef.parse "no-at-sign" =
      .error "Invalid action reference format: no-at-sign. Expected format: owner/repo@ref" ∧
    ActionRef.parse "owner/repo/sub/path@main" =
      .ok ⟨"owner", "repo", some "sub/path", "main"⟩ ∧
    ActionRef.parse "checkout@v4" =
      .error "Invalid action reference: checkout@v4. Expected at least owner/repo" := by
  have h := C3_parse_first_at "owner/repo/sub/path".data "main".data (by decide)
  have h2 := C3_parse_first_at "checkout".data "v4".data (by decide)
  refine ⟨h.1 "no-at-sign" (by decide), ?_, ?_⟩
  · have := h.2.2.1 "owner" "repo" ["sub", "path"] rfl
    simpa using this
  · have := h2.2.2.2 "checkout" rfl
    simpa using this

/-- Counterexample to claim C4: `load_or_create` is NOT total — an existing
but unreadable cache file propagates the read error — and a malformed file
yields the derived-`Default` version tag `0`, not the current tag `1`. -/
theorem C4_counterexample :
    load_or_create .unreadable = .error "failed to read cache file" ∧
    load_or_create (.readable none) = .ok ⟨⟨0, []⟩, cacheFileName⟩ ∧
    (0 : Nat) ≠ 1 := by
  exact ⟨rfl, rfl, by decide⟩

/-- Claim C4 (amended): a missing cache file yields an empty cache tagged
with the current version `1`; a readable file whose content is malformed
JSON yields the empty `Default` cache (version `0`); an existing file that
cannot be read propagates an error. -/
theorem C4_load_or_create_amended :
    load_or_create .missing = .ok ⟨⟨1, []⟩, cacheFileName⟩ ∧
    load_or_create (.readable none) = .ok ⟨CacheData.defaultData, cacheFileName⟩ ∧
    CacheData.defaultData = ⟨0, []⟩ ∧
    load_or_create .unreadable = .error "failed to read cache file" := by
  exact ⟨rfl, rfl, rfl, rfl⟩

/-- Claim C10: `set` and `remove` take `&self` and rewrite only the backing
file: every read on the in-memory cache (`get`, `should_regenerate`,
`is_expired`, `list`) returns afterwards exactly what it returned before,
and only a cache freshly loaded from the written file observes the update
(the inserted metadata, resp. the removed binding). -/
theorem C10_cache_set_remove_frame (c : Cache) (ref r h yaml : String)
    (md : ActionMetadata) (now n tnow : Nat) :
    ((c.set ref md yaml now).1 = c ∧ (c.remove ref).1 = c) ∧
    ((c.set ref md yaml now).1.get r = c.get r ∧
     (c.set ref md yaml now).1.should_regenerate r h = c.should_regenerate r h ∧
     (c.set ref md yaml now).1.is_expired r n tnow = c.is_expired r n tnow ∧
     (c.set ref md yaml now).1.list = c.list) ∧
    ((c.remove ref).1.get r = c.get r ∧
     (c.remove ref).1.should_regenerate r h = c.should_regenerate r h ∧
     (c.remove ref).1.is_expired r n tnow = c.is_expired r n tnow ∧
     (c.remove ref).1.list = c.list) ∧
    (∃ c', load_or_create (.readable (some (c.set ref md yaml now).2)) = .ok c' ∧
      c'.get ref = some md) ∧
    (∃ c', load_or_create (.readable (some (c.remove ref).2)) = .ok c' ∧
      c'.get ref = none) := by
  refine ⟨⟨rfl, rfl⟩, ⟨rfl, rfl, rfl, rfl⟩, ⟨rfl, rfl, rfl, rfl⟩, ?_, ?_⟩
  · refine ⟨_, rfl, ?_⟩
    simp [Cache.get, Cache.set, load_or_create, lookupEntry_insertEntry_self]
  · refine ⟨_, rfl, ?_⟩
    simp [Cache.get, Cache.remove, load_or_create, lookupEntry_removeEntry_self]

/-- Folding the host callback over the call list appends the converted
triples in call order. -/
theorem foldl_hostBuildCallback (calls : List (String × String × Option String))
    (acc : List BuildOutput) :
    calls.foldl (fun a c => hostBuildCallback a c.1 c.2.1 c.2.2) acc =
      acc ++ calls.map (fun c => ⟨c.1, c.2.1, c.2.2.getD "workflow"⟩) := by
  induction calls generalizing acc with
  | nil => simp
  | cons c rest ih =>
    rw [List.foldl_cons, ih]
    simp [hostBuildCallback]

/-- Transitivity of the boolean prefix test. -/
theorem isPrefixL_trans {p q s : List Char} (h1 : isPrefixL p q = true)
    (h2 : isPrefixL q s = true) : isPrefixL p s = true := by
  induction p generalizing q s with
  | nil => rfl
  | cons a p' ih =>
    cases q with
    | nil => simp [isPrefixL] at h1
    | cons b q' =>
      cases s with
      | nil => simp [isPrefixL] at h2
      | cons c' s' =>
        simp only [isPrefixL, Bool.and_eq_true, beq_iff_eq] at h1 h2 ⊢
        exact ⟨h1.1.trans h2.1, ih h1.2 h2.2⟩

/-- A line starting with `export default ` (resp. `export \x7b`,
`export type `) starts with `export `. -/
theorem startsWith_export_of_special {t : String}
    (h : rustStartsWith t "export default " = true ∨
         rustStartsWith t "export \x7b" = true ∨
         rustStartsWith t "export type " = true) :
    rustStartsWith t "export " = true := by
  rcases h with h | h | h
  · exact isPrefixL_trans (p := "export ".data) (by decide) h
  · exact isPrefixL_trans (p := "export ".data) (by decide) h
  · exact isPrefixL_trans (p := "export ".data) (by decide) h

/-- The source's per-line normalization agrees with the spec-side per-line
mapping. -/
theorem removeImportsLine_eq_specLineMap (line : String) :
    removeImportsLine line = specLineMap line := by
  simp only [removeImportsLine, specLineMap]
  by_cases hA : (rustStartsWith (rustTrim line) "import " ||
      rustStartsWith (rustTrim line) "import\x7b") = true
  · simp [hA]
  · simp only [hA, if_false, Bool.false_eq_true]
    by_cases hC : rustStartsWith (rustTrim line) "export default " = true
    · simp [hC, startsWith_export_of_special (Or.inl hC)]
    · by_cases hD : (rustStartsWith (rustTrim line) "export \x7b" ||
          rustStartsWith (rustTrim line) "export type ") = true
      · have hB : rustStartsWith (rustTrim line) "export " = true := by
          rcases Bool.or_eq_true_iff.mp hD with h | h
          · exact startsWith_export_of_special (Or.inr (Or.inl h))
          · exact startsWith_export_of_special (Or.inr (Or.inr h))
        simp [hB, hC, hD]
      · by_cases hB : rustStartsWith (rustTrim line) "export " = true
        · simp [hB, hC, hD]
        · simp [hB, hC, hD]

/-- Claim C5: declaration generation is deterministic at the byte level —
generating the typed declaration text (and the bundle summary) twice from
identical reference and metadata values yields byte-identical results; no
clock or other ambient state enters the generation. -/
theorem C5_generation_idempotent (r₁ r₂ : String) (m₁ m₂ : ActionMetadata)
    (hr : r₁ = r₂) (hm : m₁ = m₂) :
    generate_type_definition r₁ m₁ = generate_type_definition r₂ m₂ ∧
    generate_type_from_metadata r₁ m₁ = generate_type_from_metadata r₂ m₂ := by
  subst hr
  subst hm
  exact ⟨rfl, rfl⟩

/-- Witness for C5 at concrete metadata with inputs and outputs. -/
theorem C5_generation_idempotent_witness :
    generate_type_definition "actions/checkout@v5" demoGenMeta =
      generate_type_definition "actions/checkout@v5" demoGenMeta ∧
    generate_type_from_metadata "actions/checkout@v5" demoGenMeta =
      generate_type_from_metadata "actions/checkout@v5" demoGenMeta :=
  C5_generation_idempotent "actions/checkout@v5" "actions/checkout@v5"
    demoGenMeta demoGenMeta rfl rfl

/-- Claim C6: during sandbox execution every `__gha_build(id, json, kind?)`
invocation appends `(id, json, kind-or-"workflow")` to the returned
collection in invocation order; an evaluation that makes zero calls returns
an empty list successfully; an interpreter error is reported as an error. -/
theorem C6_execute_js_appends (calls : List (String × String × Option String)) :
    execute_js ⟨calls, none⟩ =
      .ok (calls.map fun c => ⟨c.1, c.2.1, c.2.2.getD "workflow"⟩) ∧
    execute_js ⟨[], none⟩ = .ok [] ∧
    (∀ e, execute_js ⟨calls, some e⟩ =
      .error ("QuickJS evaluation error: " ++ e)) := by
  refine ⟨?_, rfl, fun e => rfl⟩
  simp [execute_js, foldl_hostBuildCallback]

/-- Claim C7: in building one source file the external-interpreter fallback
runs iff the bundled runtime prelude is absent on disk, or the sandbox
returns zero artifacts, or the sandbox raises an error; when it runs, the
fallback's stdout JSON becomes exactly one Workflow-kind artifact whose id
is the source file's stem, and otherwise the sandbox's non-empty artifact
list is used as is. -/
theorem C7_fallback_selection (runtimeExists : Bool)
    (sandbox : Except String (List BuildOutput))
    (npx : Except String String) (stem : String) :
    (fallbackTriggered runtimeExists sandbox →
      selectBuildOutputs runtimeExists sandbox npx stem =
        npx.map (fallbackArtifact stem) ∧
      (∀ json, npx = .ok json →
        selectBuildOutputs runtimeExists sandbox npx stem =
          .ok [⟨stem, json, "workflow"⟩])) ∧
    (¬ fallbackTriggered runtimeExists sandbox →
      ∃ outputs, sandbox = .ok outputs ∧ outputs ≠ [] ∧
        selectBuildOutputs runtimeExists sandbox npx stem = .ok outputs) := by
  constructor
  · intro htrig
    have hsel : selectBuildOutputs runtimeExists sandbox npx stem =
        npx.map (fallbackArtifact stem) := by
      rcases htrig with h | h | ⟨e, h⟩
      · simp [selectBuildOutputs, h]
      · simp [selectBuildOutputs, h]
      · cases runtimeExists <;> simp [selectBuildOutputs, h]
    refine ⟨hsel, fun json hjson => ?_⟩
    rw [hsel, hjson]
    rfl
  · intro hneg
    simp only [fallbackTriggered, not_or] at hneg
    obtain ⟨hrt, hempty, herr⟩ := hneg
    cases sandbox with
    | error e => exact (herr ⟨e, rfl⟩).elim
    | ok outputs =>
      cases runtimeExists with
      | false => exact absurd rfl hrt
      | true =>
        refine ⟨outputs, rfl, fun hnil => hempty (by rw [hnil]), ?_⟩
        have : outputs.isEmpty = false := by
          cases outputs with
          | nil => exact absurd rfl hempty
          | cons a l => rfl
        simp [selectBuildOutputs, this]

/-- Witness for C7: the empty-artifact and missing-prelude fallback paths at
concrete inputs. -/
theorem C7_fallback_selection_witness :
    selectBuildOutputs true (.ok []) (.ok "\x7b\x7d") "ci" =
      .ok [⟨"ci", "\x7b\x7d", "workflow"⟩] ∧
    selectBuildOutputs false (.ok [⟨"x", "y", "workflow"⟩]) (.ok "j") "wf" =
      .ok [⟨"wf", "j", "workflow"⟩] ∧
    selectBuildOutputs true (.ok [⟨"a", "b", "action"⟩]) (.error "no npx") "wf" =
      .ok [⟨"a", "b", "action"⟩] := by
  refine ⟨((C7_fallback_selection true (.ok []) (.ok "\x7b\x7d") "ci").1
            (Or.inr (Or.inl rfl))).2 _ rfl,
          ((C7_fallback_selection false (.ok [⟨"x", "y", "workflow"⟩]) (.ok "j") "wf").1
            (Or.inl rfl)).2 _ rfl,
          ?_⟩
  obtain ⟨outputs, hout, hne, hsel⟩ :=
    (C7_fallback_selection true (.ok [⟨"a", "b", "action"⟩]) (.error "no npx") "wf").2
      (by simp [fallbackTriggered])
  rw [hsel, Except.ok.inj hout]

/-- Claim C8: Workflow-kind artifacts must be top-level mappings containing
both the trigger key `on` and the `jobs` key, with an error naming the
missing piece otherwise (including non-mapping documents); artifacts of any
other kind (in particular Action-kind) are never subjected to this check. -/
theorem C8_workflow_validation (output_type : String) (doc : YamlValue) :
    (output_type ≠ "workflow" → validateArtifactYaml output_type doc = .ok ()) ∧
    (validateArtifactYaml "workflow" doc = .ok () ↔
      ∃ pairs, doc = .mapV pairs ∧ mappingContainsStrKey pairs "on" = true ∧
        mappingContainsStrKey pairs "jobs" = true) ∧
    (∀ pairs, doc = .mapV pairs → mappingContainsStrKey pairs "on" = false →
      validateArtifactYaml "workflow" doc =
        .error "Workflow missing required \x27on\x27 field") ∧
    (∀ pairs, doc = .mapV pairs → mappingContainsStrKey pairs "on" = true →
      mappingContainsStrKey pairs "jobs" = false →
      validateArtifactYaml "workflow" doc =
        .error "Workflow missing required \x27jobs\x27 field") ∧
    ((∀ pairs, doc ≠ .mapV pairs) →
      validateArtifactYaml "workflow" doc = .error "Workflow must be a YAML mapping") := by
  have hbeq : ("workflow" == "workflow") = true := by decide
  refine ⟨?_, ?_, ?_, ?_, ?_⟩
  · intro hne
    have : (output_type == "workflow") = false := by simpa using hne
    simp [validateArtifactYaml, this]
  · cases doc with
    | mapV pairs =>
      by_cases hOn : mappingContainsStrKey pairs "on" = true <;>
        by_cases hJobs : mappingContainsStrKey pairs "jobs" = true <;>
          simp [validateArtifactYaml, validate_workflow_yaml, hbeq, hOn, hJobs]
    | nullV => simp [validateArtifactYaml, validate_workflow_yaml, hbeq]
    | boolV b => simp [validateArtifactYaml, validate_workflow_yaml, hbeq]
    | numV nn => simp [validateArtifactYaml, validate_workflow_yaml, hbeq]
    | strV s => simp [validateArtifactYaml, validate_workflow_yaml, hbeq]
    | seqV l => simp [validateArtifactYaml, validate_workflow_yaml, hbeq]
  · intro pairs hdoc hOn
    subst hdoc
    simp [validateArtifactYaml, validate_workflow_yaml, hbeq, hOn]
  · intro pairs hdoc hOn hJobs
    subst hdoc
    simp [validateArtifactYaml, validate_workflow_yaml, hbeq, hOn, hJobs]
  · intro hnotmap
    cases doc with
    | mapV pairs => exact absurd rfl (hnotmap pairs)
    | nullV => simp [validateArtifactYaml, validate_workflow_yaml, hbeq]
    | boolV b => simp [validateArtifactYaml, validate_workflow_yaml, hbeq]
    | numV nn => simp [validateArtifactYaml, validate_workflow_yaml, hbeq]
    | strV s => simp [validateArtifactYaml, validate_workflow_yaml, hbeq]
    | seqV l => simp [validateArtifactYaml, validate_workflow_yaml, hbeq]

/-- Witness for C8 on the specification's example documents: a mapping
lacking `on` fails naming `on`; one with `on` and `jobs` passes; an
Action-kind artifact skips the check; a sequence document fails as a
non-mapping. -/
theorem C8_workflow_validation_witness :
    validateArtifactYaml "workflow" (.mapV [(.strV "name", .strV "CI"), (.strV "jobs", .mapV [])]) =
      .error "Workflow missing required \x27on\x27 field" ∧
    validateArtifactYaml "workflow"
        (.mapV [(.strV "on", .mapV [(.strV "push", .mapV [])]), (.strV "jobs", .mapV [])]) =
      .ok () ∧
    validateArtifactYaml "action" (.mapV [(.strV "name", .strV "CI")]) = .ok () ∧
    validateArtifactYaml "workflow" (.seqV []) = .error "Workflow must be a YAML mapping" := by
  refine ⟨(C8_workflow_validation "workflow" _).2.2.1 _ rfl (by decide),
          (C8_workflow_validation "workflow" _).2.1.mpr ⟨_, rfl, by decide, by decide⟩,
          (C8_workflow_validation "action" _).1 (by decide),
          (C8_workflow_validation "workflow" (.seqV [])).2.2.2.2 (fun pairs h => by cases h)⟩

/-- Counterexample to claim C9: an `export <decl>` line whose declaration is
a type alias is dropped entirely (the source's `export type ` test has no
brace), instead of becoming the declaration as the claim states. -/
theorem C9_counterexample :
    remove_imports "export type Foo = number;" = "" ∧
    removeImportsLine "export type Foo = number;" = [] ∧
    "" ≠ "type Foo = number;" := by
  exact ⟨rfl, rfl, by decide⟩

/-- Claim C9 (amended): the normalization maps its input line by line:
module-import lines are dropped; `export default X` becomes `X` with every
leading repetition of `export default ` stripped; bare `export \x7b ... \x7d`
re-exports and ALL `export type ` lines (including type-alias declarations)
are dropped; any other `export <decl>` line becomes `<decl>`; every other
line passes through unchanged. -/
theorem C9_remove_imports_amended (source : String) :
    remove_imports source =
      String.intercalate "\n" ((rustLines source).flatMap specLineMap) ∧
    (∀ line, removeImportsLine line = specLineMap line) := by
  have hpt : ∀ l : List String, l.flatMap removeImportsLine = l.flatMap specLineMap := by
    intro l
    induction l with
    | nil => rfl
    | cons a rest ih => simp [List.flatMap_cons, removeImportsLine_eq_specLineMap, ih]
  exact ⟨by rw [remove_imports, hpt], removeImportsLine_eq_specLineMap⟩

/-- Counterexample to claim C1 as stated: a recognized `getAction("x")` call
nested inside an optional chain — in the chain computed member's INDEX
position (`a?.[getAction("x")]`) — is not extracted: the extractor's
`ChainElement::ComputedMemberExpression` arm visits only the member's
object, unlike the plain computed member which visits object and index.
The same call extracts fine in isolation. -/
theorem C1_counterexample :
    programRefs [Statement.expressionStatement (.chainExpression
      (.computedMemberExpression (.identifier "a")
        (.callExpression (.identifier "getAction") [.expr (.stringLiteral "x")])))] = ∅ ∧
    exprRefs (.callExpression (.identifier "getAction") [.expr (.stringLiteral "x")]) =
      {"x"} := by
  constructor
  · simp [programRefs, stmtListRefs, stmtRefs, exprRefs, chainRefs, callRefs, argListRefs,
      recognizedArg]
  · simp [exprRefs, callRefs, argListRefs, recognizedArg]

/-- Claim C1 (amended): for every program and string `s`, extraction —
which is total and deduplicating, so unrecognized call shapes are ignored
(not errors) and a reference appears at most once — contains `s` exactly
when a call with bare-identifier callee `getAction` and string-literal
first argument `s` occurs nested through the listed expression and
statement positions, with the one qualification that inside an optional
chain only call elements, non-null assertions and member OBJECTS are
followed (a chain computed member's index expression is not). -/
theorem C1_extractor_reachability (s : String) (program : List Statement) :
    s ∈ programRefs program ↔ reachProgram s program = true := by
  have h := mem_stmtListRefs s program
  simp only [programRefs, reachProgram]
  exact h

/-- The specification's own extraction example: in
`const x = [f(g("ref-a")), \x7b k: getAction("ref-b") \x7d]` only
`"ref-b"` is extracted — non-target calls are ignored, while the recognized
call is found inside the array/object nesting. -/
theorem extractor_spec_example :
    programRefs [Statement.variableDeclaration [some (.arrayExpression
      [.expr (.callExpression (.identifier "f")
        [.expr (.callExpression (.identifier "g") [.expr (.stringLiteral "ref-a")])]),
       .expr (.objectExpression [.objectProperty
        (.callExpression (.identifier "getAction") [.expr (.stringLiteral "ref-b")])])])]] =
      {"ref-b"} := by
  simp [programRefs, stmtListRefs, stmtRefs, optExprListRefs, exprRefs, elemListRefs,
    propListRefs, callRefs, argListRefs, recognizedArg]

end Gaji
